import Mathlib

/-!
Shallow embedding of the framebuffer GIF animation player (`src/main.rs`)
and proofs about its frame compositor and playback scheduler.

Machine integers are modelled as `Nat`/`Int`; `u64` arithmetic that can wrap
is taken modulo `2 ^ 64`.  Rust panics (slice index out of bounds, a `usize`
cast of a negative `isize` producing an index that is always out of range,
`chunks(0)`) are modelled as `Except.error` outcomes, so a run of the
compositor either returns the mutated destination buffer or the error that
aborts the process.
-/

namespace FbAnim

/-- Error outcomes of a compositor run.  `paletteOob` models the panic on
`gif_palette[j]` with `j` out of range, `destOob` the panic on
`fb_frame[i]` with `i` out of range (including the case of a negative
`isize` index cast to `usize`, which always exceeds the buffer length),
and `zeroWidthFrame` the panic of `chunks(0)` on a zero-width frame. -/
inductive CompErr where
  | paletteOob
  | destOob
  | zeroWidthFrame
deriving DecidableEq, Repr

/-- Model of `FramebufferInfo` (main.rs lines 40-45): `width`, `height`,
`channels` and `alignment`, all `isize` in the source, modelled as `Int`. -/
structure FramebufferInfo where
  width : Int
  height : Int
  channels : Int
  alignment : Int
deriving DecidableEq, Repr

/-- Model of `Offset` (main.rs lines 47-50): a signed pixel displacement. -/
structure Offset where
  x : Int
  y : Int
deriving DecidableEq, Repr

/-- Model of the `gif::Frame` fields consumed by the player: placement
(`left`, `top`, both `u16`), dimensions (`width`, `height`, both `u16`),
the optional transparent index (`Option<u8>`), the frame delay in declared
delay units (`u16`), the indexed pixel `buffer` and the optional per-frame
`palette`.  Bytes are modelled as `Nat`. -/
structure GifFrame where
  width : Nat
  height : Nat
  left : Nat
  top : Nat
  transparent : Option Nat
  delay : Nat
  buffer : List Nat
  palette : Option (List Nat)
deriving DecidableEq, Repr

/-- Read `gif_palette[j]`: a Rust slice index, which panics (here: errors
with `paletteOob`) when `j` is out of range, and never reads past the end. -/
def paletteRead (pal : List Nat) (j : Nat) : Except CompErr Nat :=
  if h : j < pal.length then .ok pal[j] else .error .paletteOob

/-- Write `fb_frame[i] = b` where `i` is the `isize` offset before the
`as usize` cast.  A negative `i` wraps to at least `2 ^ 63`, which always
exceeds the buffer length, so both a negative and a too-large index panic
(here: error with `destOob`). -/
def destWrite (dest : List Nat) (i : Int) (b : Nat) : Except CompErr (List Nat) :=
  if 0 ≤ i ∧ i.toNat < dest.length then .ok (dest.set i.toNat b) else .error .destOob

/-- The three destination writes of `process_gif_frame` (main.rs lines
159-161), in source order and with Rust's evaluation order for
`place = value` (value first, then place):
`fb_frame[i] = gif_palette[j+2]`, `fb_frame[i+1] = gif_palette[j+1]`,
`fb_frame[i+2] = gif_palette[j]`. -/
def writePixel (pal : List Nat) (dest : List Nat) (i : Int) (j : Nat) :
    Except CompErr (List Nat) :=
  match paletteRead pal (j + 2) with
  | .error e => .error e
  | .ok b2 =>
    match destWrite dest i b2 with
    | .error e => .error e
    | .ok d1 =>
      match paletteRead pal (j + 1) with
      | .error e => .error e
      | .ok b1 =>
        match destWrite d1 (i + 1) b1 with
        | .error e => .error e
        | .ok d2 =>
          match paletteRead pal j with
          | .error e => .error e
          | .ok b0 => destWrite d2 (i + 2) b0

/-- Inner pixel loop of `process_gif_frame` (main.rs lines 141-162) over the
remainder of one row, starting at source column `x`; `yd` is the already
clipped destination row.  `destX < 0` skips the pixel (`continue`),
`destX ≥ width` stops the row (`break`), a transparent pixel is skipped,
otherwise the three channel bytes are written. -/
def processRow (frame : GifFrame) (pal : List Nat) (fb_info : FramebufferInfo)
    (offset : Offset) (yd : Int) : Nat → List Nat → List Nat → Except CompErr (List Nat)
  | _, [], dest => .ok dest
  | x, px :: rest, dest =>
    let xd : Int := (x : Int) + offset.x + (frame.left : Int)
    if xd < 0 then
      processRow frame pal fb_info offset yd (x + 1) rest dest
    else if fb_info.width ≤ xd then
      .ok dest
    else if frame.transparent = some px then
      processRow frame pal fb_info offset yd (x + 1) rest dest
    else
      match writePixel pal dest ((yd * fb_info.width + xd) * fb_info.channels +
          yd * fb_info.alignment) (px * 3) with
      | .error e => .error e
      | .ok d => processRow frame pal fb_info offset yd (x + 1) rest d

/-- Outer row loop of `process_gif_frame` (main.rs lines 131-139) over the
remaining rows, starting at source row `y`.  `destY < 0` skips the row
(`continue`), `destY ≥ height` stops all processing (`break`). -/
def processRows (frame : GifFrame) (pal : List Nat) (fb_info : FramebufferInfo)
    (offset : Offset) : Nat → List (List Nat) → List Nat → Except CompErr (List Nat)
  | _, [], dest => .ok dest
  | y, line :: rest, dest =>
    let yd : Int := (y : Int) + offset.y + (frame.top : Int)
    if yd < 0 then
      processRows frame pal fb_info offset (y + 1) rest dest
    else if fb_info.height ≤ yd then
      .ok dest
    else
      match processRow frame pal fb_info offset yd 0 line dest with
      | .error e => .error e
      | .ok d => processRows frame pal fb_info offset (y + 1) rest d

/-- Fuel-driven worker for `chunksList`; with `w ≥ 1` each step drops at
least one element, so fuel equal to the list length is enough. -/
def chunksGo (w : Nat) : Nat → List Nat → List (List Nat)
  | 0, _ => []
  | _ + 1, [] => []
  | fuel + 1, a :: l => ((a :: l).take w) :: chunksGo w fuel ((a :: l).drop w)

/-- Model of `buffer.chunks(width)` (main.rs line 129): the row slices of the
frame buffer.  Rust's `chunks` panics for a chunk size of `0`; that case is
diverted before this function is called (see `process_gif_frame`). -/
def chunksList (w : Nat) (l : List Nat) : List (List Nat) :=
  if w = 0 then [] else chunksGo w l.length l

/-- Model of `process_gif_frame` (main.rs lines 127-164): split the frame
buffer into rows of `frame.width` pixels and run the row loop from row 0.
A zero-width frame makes `chunks(0)` panic, modelled as `zeroWidthFrame`. -/
def process_gif_frame (gif_frame : GifFrame) (gif_palette : List Nat)
    (fb_frame : List Nat) (fb_info : FramebufferInfo) (offset : Offset) :
    Except CompErr (List Nat) :=
  if gif_frame.width = 0 then .error .zeroWidthFrame
  else
    processRows gif_frame gif_palette fb_info offset 0
      (chunksList gif_frame.width gif_frame.buffer) fb_frame

/-- Modulus of Rust `u64` arithmetic. -/
def U64_MOD : Nat := 2 ^ 64

/-- Model of `let delay = args.interval * gif_frame.delay as u64` (main.rs
line 204): a direct `u64` product of the configured interval and the frame's
declared delay units, wrapping modulo `2 ^ 64`. -/
def frameDelay (interval : Nat) (delay : Nat) : Nat :=
  interval * delay % U64_MOD

/-- Model of `postpone_next_frame` (main.rs lines 110-116), returning the
number of milliseconds slept: `elapsed.as_millis() as u64` truncates to
`u64`; if the elapsed time is below `delay` the thread sleeps for the
remaining time, otherwise it does not sleep at all. -/
def postpone_next_frame (delay : Nat) (elapsedMillis : Nat) : Nat :=
  let elapsed_time := elapsedMillis % U64_MOD
  if elapsed_time < delay then delay - elapsed_time else 0

/-- Model of the `Offset` computation in `main` (main.rs lines 187-194):
when centering is requested, `(fb - gif) / 2` per axis with Rust `isize`
division (truncation toward zero, `Int.tdiv`), else `(0, 0)`. -/
def computeOffset (center : Bool) (fb_info : FramebufferInfo)
    (gifWidth gifHeight : Nat) : Offset :=
  if center then
    { x := Int.tdiv (fb_info.width - (gifWidth : Int)) 2
      y := Int.tdiv (fb_info.height - (gifHeight : Int)) 2 }
  else
    { x := 0, y := 0 }

/-- Byte length of one destination row: visible pixels plus padding. -/
def rowStride (fb_info : FramebufferInfo) : Int :=
  fb_info.width * fb_info.channels + fb_info.alignment

/-- The destination byte index `k` is one of the three channel bytes of an
in-bounds destination coordinate: `k = (yd*width + xd)*channels +
yd*alignment + t` with `0 ≤ yd < height`, `0 ≤ xd < width`, `0 ≤ t < 3`. -/
def pixelByteTarget (fb_info : FramebufferInfo) (k : Nat) : Prop :=
  ∃ yd xd t : Int, 0 ≤ yd ∧ yd < fb_info.height ∧ 0 ≤ xd ∧ xd < fb_info.width ∧
    0 ≤ t ∧ t < 3 ∧
    (k : Int) = (yd * fb_info.width + xd) * fb_info.channels + yd * fb_info.alignment + t

/-- The destination byte index `k` lies in the padding region of some row:
`k = yd * rowStride + r` with `width*channels ≤ r < rowStride`. -/
def isPaddingByte (fb_info : FramebufferInfo) (k : Nat) : Prop :=
  ∃ yd r : Int, 0 ≤ yd ∧ fb_info.width * fb_info.channels ≤ r ∧ r < rowStride fb_info ∧
    (k : Int) = yd * rowStride fb_info + r

/-- The destination byte index `k` is a channel byte beyond the first three
channels of some in-row pixel: `k = yd * rowStride + xd*channels + t` with
`0 ≤ xd < width` and `3 ≤ t < channels`. -/
def isExtraChannelByte (fb_info : FramebufferInfo) (k : Nat) : Prop :=
  ∃ yd xd t : Int, 0 ≤ yd ∧ 0 ≤ xd ∧ xd < fb_info.width ∧ 3 ≤ t ∧ t < fb_info.channels ∧
    (k : Int) = yd * rowStride fb_info + xd * fb_info.channels + t

/-- Abstraction of an opened GIF source: the optional global palette parsed
from the header and the finite frame sequence produced by
`read_next_frame` before it returns `None`.  Re-opening an unchanged file
(`get_gif_decoder`, main.rs lines 119-124 and 215) yields the same value. -/
structure GifSource where
  globalPalette : Option (List Nat)
  frames : List GifFrame
deriving DecidableEq, Repr

/-- Model of `decoder.global_palette().unwrap_or_default().to_vec()`
(main.rs lines 183-184): a missing global palette becomes the empty byte
vector, not a load-time failure. -/
def globalPalOf (src : GifSource) : List Nat :=
  src.globalPalette.getD []

/-- Model of `gif_frame.palette.as_ref().unwrap_or(&global_palette)`
(main.rs line 199): the per-frame palette when present, else the global
one. -/
def resolvePalette (globalPal : List Nat) (frame : GifFrame) : List Nat :=
  frame.palette.getD globalPal

/-- State of the playback loop in `main` (main.rs lines 196-216):
the frames still to be read from the current decoder, the retained
destination buffer `fb_frame`, the log of buffers flushed so far by
`fb.write_frame`, and whether the loop has exited. -/
structure SchedState where
  remaining : List GifFrame
  dest : List Nat
  flushes : List (List Nat)
  done : Bool
deriving DecidableEq, Repr

/-- Scheduler state right after the decoder is first opened: all frames
pending, the freshly allocated destination buffer, nothing flushed. -/
def initState (src : GifSource) (dest0 : List Nat) : SchedState :=
  { remaining := src.frames, dest := dest0, flushes := [], done := false }

/-- One step of the playback loop (main.rs lines 196-216).  With a pending
frame: resolve its palette, composite into the retained buffer, flush.
At end of stream: exit when `once` is set, else re-open the decoder on the
same source (the destination buffer and the flush log are kept). -/
def schedStep (src : GifSource) (once : Bool) (fb_info : FramebufferInfo)
    (offset : Offset) (s : SchedState) : Except CompErr SchedState :=
  if s.done then .ok s
  else
    match s.remaining with
    | frame :: rest =>
      match process_gif_frame frame (resolvePalette (globalPalOf src) frame)
          s.dest fb_info offset with
      | .error e => .error e
      | .ok d =>
        .ok { remaining := rest, dest := d, flushes := s.flushes ++ [d], done := false }
    | [] =>
      if once then .ok { s with done := true }
      else .ok { s with remaining := src.frames }

/-- Iterate `schedStep` a given number of times, stopping on a fatal
compositor error. -/
def runSched (src : GifSource) (once : Bool) (fb_info : FramebufferInfo)
    (offset : Offset) : Nat → SchedState → Except CompErr SchedState
  | 0, s => .ok s
  | n + 1, s =>
    match schedStep src once fb_info offset s with
    | .error e => .error e
    | .ok s2 => runSched src once fb_info offset n s2

theorem destWrite_ok {dest : List Nat} {i : Int} {b : Nat} {d : List Nat}
    (h : destWrite dest i b = .ok d) :
    0 ≤ i ∧ i.toNat < dest.length ∧ d = dest.set i.toNat b := by
  unfold destWrite at h
  split at h
  · rename_i hc
    exact ⟨hc.1, hc.2, by cases h; rfl⟩
  · cases h

theorem paletteRead_ok {pal : List Nat} {j : Nat} {b : Nat}
    (h : paletteRead pal j = .ok b) :
    ∃ hj : j < pal.length, b = pal[j] := by
  unfold paletteRead at h
  split at h
  · rename_i hc
    exact ⟨hc, by cases h; rfl⟩
  · cases h

theorem paletteRead_oob {pal : List Nat} {j : Nat} (h : pal.length ≤ j) :
    paletteRead pal j = .error .paletteOob := by
  unfold paletteRead
  rw [dif_neg (by omega)]

theorem paletteRead_in_bounds {pal : List Nat} {j : Nat} (h : j < pal.length) :
    paletteRead pal j = .ok pal[j] := by
  unfold paletteRead
  rw [dif_pos h]

theorem writePixel_palette_oob {pal dest : List Nat} {i : Int} {j : Nat}
    (h : pal.length ≤ j + 2) :
    writePixel pal dest i j = .error .paletteOob := by
  unfold writePixel
  rw [paletteRead_oob h]

theorem writePixel_eq_of_bounds {pal dest : List Nat} {i : Int} {j : Nat}
    (hj : j + 3 ≤ pal.length) (hi : 0 ≤ i) (hlen : i.toNat + 2 < dest.length) :
    writePixel pal dest i j =
      .ok (((dest.set i.toNat pal[j + 2]).set (i.toNat + 1) pal[j + 1]).set
        (i.toNat + 2) pal[j]) := by
  have h1 : (i + 1).toNat = i.toNat + 1 := by omega
  have h2 : (i + 2).toNat = i.toNat + 2 := by omega
  have d1e : destWrite dest i pal[j + 2] = .ok (dest.set i.toNat pal[j + 2]) := by
    unfold destWrite
    rw [if_pos ⟨hi, by omega⟩]
  have d2e : destWrite (dest.set i.toNat pal[j + 2]) (i + 1) pal[j + 1] =
      .ok ((dest.set i.toNat pal[j + 2]).set (i.toNat + 1) pal[j + 1]) := by
    unfold destWrite
    rw [if_pos ⟨by omega, by simp only [List.length_set]; omega⟩, h1]
  have d3e : destWrite ((dest.set i.toNat pal[j + 2]).set (i.toNat + 1) pal[j + 1])
      (i + 2) pal[j] =
      .ok (((dest.set i.toNat pal[j + 2]).set (i.toNat + 1) pal[j + 1]).set
        (i.toNat + 2) pal[j]) := by
    unfold destWrite
    rw [if_pos ⟨by omega, by simp only [List.length_set]; omega⟩, h2]
  unfold writePixel
  simp only [paletteRead_in_bounds (show j + 2 < pal.length by omega),
    paletteRead_in_bounds (show j + 1 < pal.length by omega),
    paletteRead_in_bounds (show j < pal.length by omega), d1e, d2e, d3e]

/-- C1: a frame pixel with palette index `p` such that the resolved palette
holds fewer than `3 * (p + 1)` bytes makes the compositor fail with the
palette out-of-bounds error: the very first palette access (`gif_palette[3p+2]`)
is bounds-checked, so the run aborts before any of the three destination
writes for that pixel and without reading past the palette; lifted to the
pixel loop, a clipped-in, non-transparent pixel with such an index makes
`processRow` return that error. -/
theorem palette_bounds_error_detected (frame : GifFrame) (pal : List Nat)
    (fb_info : FramebufferInfo) (offset : Offset) (yd : Int) (x p : Nat)
    (rest dest : List Nat) (hpal : pal.length < 3 * (p + 1)) :
    writePixel pal dest ((yd * fb_info.width + ((x : Int) + offset.x + (frame.left : Int))) *
        fb_info.channels + yd * fb_info.alignment) (p * 3) = .error .paletteOob ∧
    (0 ≤ (x : Int) + offset.x + (frame.left : Int) →
      (x : Int) + offset.x + (frame.left : Int) < fb_info.width →
      frame.transparent ≠ some p →
      processRow frame pal fb_info offset yd x (p :: rest) dest = .error .paletteOob) := by
  have hw : ∀ i : Int, writePixel pal dest i (p * 3) = .error .paletteOob := fun i =>
    writePixel_palette_oob (by omega)
  refine ⟨hw _, fun hx0 hxw htr => ?_⟩
  simp only [processRow]
  rw [if_neg (by omega), if_neg (by omega), if_neg htr, hw]

/-- Witness for C1 at a concrete input: a 1-pixel frame referencing index 1
against a 3-byte palette aborts with the palette out-of-bounds error. -/
theorem palette_bounds_error_detected_witness :
    processRow ⟨1, 1, 0, 0, none, 0, [1], none⟩ [7, 8, 9] ⟨4, 4, 3, 0⟩ ⟨0, 0⟩ 0 0 [1]
      (List.replicate 12 0) = .error .paletteOob :=
  (palette_bounds_error_detected ⟨1, 1, 0, 0, none, 0, [1], none⟩ [7, 8, 9] ⟨4, 4, 3, 0⟩
    ⟨0, 0⟩ 0 0 1 [] (List.replicate 12 0) (by decide)).2 (by decide) (by decide) (by decide)

/-- C2: a non-transparent pixel with palette index `p` whose destination
coordinate passed clipping causes exactly three destination writes at the
byte offset `o = (destY*width + destX)*channels + destY*alignment`, storing
`palette[3p+2]`, `palette[3p+1]`, `palette[3p]` at `o`, `o+1`, `o+2`:
the channel order is reversed relative to the palette. -/
theorem pixel_write_reversed_channels (frame : GifFrame) (pal : List Nat)
    (fb_info : FramebufferInfo) (offset : Offset) (yd : Int) (x px : Nat)
    (rest dest : List Nat) (xd o : Int)
    (hxd : xd = (x : Int) + offset.x + (frame.left : Int))
    (ho : o = (yd * fb_info.width + xd) * fb_info.channels + yd * fb_info.alignment)
    (hx0 : 0 ≤ xd) (hxw : xd < fb_info.width) (htr : frame.transparent ≠ some px)
    (hpal : px * 3 + 3 ≤ pal.length) (ho0 : 0 ≤ o) (hlen : o.toNat + 2 < dest.length) :
    processRow frame pal fb_info offset yd x (px :: rest) dest =
      processRow frame pal fb_info offset yd (x + 1) rest
        (((dest.set o.toNat pal[px * 3 + 2]).set (o.toNat + 1) pal[px * 3 + 1]).set
          (o.toNat + 2) pal[px * 3]) := by
  subst hxd ho
  simp only [processRow]
  rw [if_neg (by omega), if_neg (by omega), if_neg htr,
    writePixel_eq_of_bounds hpal ho0 hlen]

/-- Witness for C2 at a concrete input: in a 2-wide framebuffer with 4
channels per pixel and row alignment 1, the pixel with index 1 at
destination (1, 0) writes palette bytes 5, 4, 3 to offsets 4, 5, 6. -/
theorem pixel_write_reversed_channels_witness :
    processRow ⟨2, 1, 0, 0, none, 0, [0, 1], none⟩ [0, 1, 2, 3, 4, 5] ⟨2, 1, 4, 1⟩ ⟨0, 0⟩ 0 1 [1]
      (List.replicate 9 7) =
      processRow ⟨2, 1, 0, 0, none, 0, [0, 1], none⟩ [0, 1, 2, 3, 4, 5] ⟨2, 1, 4, 1⟩ ⟨0, 0⟩ 0 2 []
        ((((List.replicate 9 7).set 4 5).set 5 4).set 6 3) :=
  pixel_write_reversed_channels ⟨2, 1, 0, 0, none, 0, [0, 1], none⟩ [0, 1, 2, 3, 4, 5]
    ⟨2, 1, 4, 1⟩ ⟨0, 0⟩ 0 1 1 [] (List.replicate 9 7) 1 4 (by decide) (by decide) (by decide)
    (by decide) (by decide) (by decide) (by decide) (by decide)

/-- C4: the target inter-frame delay is the direct `u64` product of the
configured interval and the frame's declared delay units (no
centisecond-to-millisecond conversion); when the elapsed time is strictly
below the target the pacing step sleeps for exactly the difference, and
otherwise it sleeps for 0 milliseconds (it proceeds immediately; the wait
is a `Nat` and can never be negative). -/
theorem pacing_delay_product (interval d elapsed : Nat)
    (hd : interval * d < U64_MOD) (he : elapsed < U64_MOD) :
    frameDelay interval d = interval * d ∧
    (elapsed < interval * d →
      postpone_next_frame (frameDelay interval d) elapsed = interval * d - elapsed) ∧
    (interval * d ≤ elapsed →
      postpone_next_frame (frameDelay interval d) elapsed = 0) := by
  have hfd : frameDelay interval d = interval * d := Nat.mod_eq_of_lt hd
  have hee : elapsed % U64_MOD = elapsed := Nat.mod_eq_of_lt he
  refine ⟨hfd, fun hlt => ?_, fun hge => ?_⟩
  · unfold postpone_next_frame
    rw [hfd, hee, if_pos hlt]
  · unfold postpone_next_frame
    rw [hfd, hee, if_neg (by omega)]

/-- Witness for C4 at the spec's concrete pacing example: interval 5 and 10
declared delay units give a 50 ms target, and with 20 ms elapsed the
scheduler sleeps 30 ms. -/
theorem pacing_delay_product_witness :
    frameDelay 5 10 = 50 ∧ postpone_next_frame (frameDelay 5 10) 20 = 30 := by
  have h := pacing_delay_product 5 10 20 (by norm_num [U64_MOD]) (by norm_num [U64_MOD])
  exact ⟨h.1, by rw [h.2.1 (by norm_num [h.1])]⟩

/-- Helper: truncating division by two of an integer at most `-2` is
negative (division of `-1` truncates to `0`, so `-2` is the threshold). -/
theorem tdiv_two_neg {a : Int} (h : a ≤ -2) : Int.tdiv a 2 < 0 := by
  have h1 : a = -(-a) := by ring
  rw [h1, Int.neg_tdiv]
  have h2 : Int.tdiv (-a) 2 = -a / 2 := Int.tdiv_eq_ediv (by omega) (by omega)
  omega

/-- C8 counterexample: with a 10-pixel-wide canvas and an 11-pixel-wide
frame the frame dimension exceeds the canvas dimension, yet the centering
offset component is `(10 - 11) / 2 = 0` under truncating division, not
negative as the claim states. -/
theorem centering_offset_exceed_by_one_not_negative :
    (11 : Int) > 10 ∧ computeOffset true ⟨10, 10, 3, 0⟩ 11 11 = { x := 0, y := 0 } ∧
      ¬(computeOffset true ⟨10, 10, 3, 0⟩ 11 11).x < 0 := by
  refine ⟨by norm_num, by decide, by decide⟩

/-- C8 (amended): when centering is requested the offset is
`((canvasWidth - frameWidth) / 2, (canvasHeight - frameHeight) / 2)` with
integer division truncating toward zero, and its components are negative
whenever the frame dimension exceeds the canvas dimension by at least 2
(an excess of exactly 1 truncates to 0); without centering the offset is
exactly `(0, 0)`. -/
theorem centering_offset_truncating (fb_info : FramebufferInfo) (gw gh : Nat) :
    computeOffset true fb_info gw gh =
      { x := Int.tdiv (fb_info.width - (gw : Int)) 2
        y := Int.tdiv (fb_info.height - (gh : Int)) 2 } ∧
    computeOffset false fb_info gw gh = { x := 0, y := 0 } ∧
    (fb_info.width + 2 ≤ (gw : Int) → (computeOffset true fb_info gw gh).x < 0) ∧
    (fb_info.height + 2 ≤ (gh : Int) → (computeOffset true fb_info gw gh).y < 0) := by
  refine ⟨rfl, rfl, fun hx => ?_, fun hy => ?_⟩
  · show Int.tdiv (fb_info.width - (gw : Int)) 2 < 0
    exact tdiv_two_neg (by omega)
  · show Int.tdiv (fb_info.height - (gh : Int)) 2 < 0
    exact tdiv_two_neg (by omega)

/-- Witness for C8 (amended) at a concrete input: a 14-pixel frame on a
10-pixel canvas is centered with the negative offset `(-2, -2)`, and
without centering the offset is `(0, 0)`. -/
theorem centering_offset_truncating_witness :
    computeOffset true ⟨10, 10, 3, 0⟩ 14 14 =
      { x := Int.tdiv ((10 : Int) - 14) 2, y := Int.tdiv ((10 : Int) - 14) 2 } ∧
    computeOffset false ⟨10, 10, 3, 0⟩ 14 14 = { x := 0, y := 0 } ∧
    (computeOffset true ⟨10, 10, 3, 0⟩ 14 14).x < 0 := by
  have h := centering_offset_truncating ⟨10, 10, 3, 0⟩ 14 14
  exact ⟨h.1, h.2.1, h.2.2.1 (by norm_num)⟩

/-- C10: when the stream has no global palette, `unwrap_or_default` makes
loading succeed with an empty palette; a frame without a per-frame palette
is then resolved against the zero-length palette, so processing any
clipped-in, non-transparent pixel of such a frame takes the palette
out-of-bounds path. -/
theorem missing_global_palette_resolves_empty (src : GifSource) (frame : GifFrame)
    (fb_info : FramebufferInfo) (offset : Offset) (yd : Int) (x px : Nat)
    (rest dest : List Nat) (hg : src.globalPalette = none) (hf : frame.palette = none)
    (hx0 : 0 ≤ (x : Int) + offset.x + (frame.left : Int))
    (hxw : (x : Int) + offset.x + (frame.left : Int) < fb_info.width)
    (htr : frame.transparent ≠ some px) :
    resolvePalette (globalPalOf src) frame = [] ∧
    processRow frame (resolvePalette (globalPalOf src) frame) fb_info offset yd x
      (px :: rest) dest = .error .paletteOob := by
  have hres : resolvePalette (globalPalOf src) frame = [] := by
    unfold resolvePalette globalPalOf
    rw [hg, hf]
    rfl
  refine ⟨hres, ?_⟩
  rw [hres]
  simp only [processRow]
  rw [if_neg (by omega), if_neg (by omega), if_neg htr,
    writePixel_palette_oob (by simp)]

/-- Witness for C10 at a concrete input: a source with no global palette and
a palette-less 1-pixel frame referencing index 0 aborts with the palette
out-of-bounds error. -/
theorem missing_global_palette_resolves_empty_witness :
    processRow ⟨1, 1, 0, 0, none, 0, [0], none⟩
      (resolvePalette (globalPalOf ⟨none, [⟨1, 1, 0, 0, none, 0, [0], none⟩]⟩)
        ⟨1, 1, 0, 0, none, 0, [0], none⟩) ⟨4, 4, 3, 0⟩ ⟨0, 0⟩ 0 0 [0]
      (List.replicate 12 0) = .error .paletteOob :=
  (missing_global_palette_resolves_empty ⟨none, [⟨1, 1, 0, 0, none, 0, [0], none⟩]⟩
    ⟨1, 1, 0, 0, none, 0, [0], none⟩ ⟨4, 4, 3, 0⟩ ⟨0, 0⟩ 0 0 0 [] (List.replicate 12 0)
    rfl rfl (by decide) (by decide) (by decide)).2

theorem writePixel_confine {pal dest d : List Nat} {i : Int} {j : Nat}
    (h : writePixel pal dest i j = .ok d) :
    0 ≤ i ∧ d.length = dest.length ∧
    ∀ k : Nat, (k : Int) ≠ i → (k : Int) ≠ i + 1 → (k : Int) ≠ i + 2 →
      d[k]? = dest[k]? := by
  unfold writePixel at h
  cases e2 : paletteRead pal (j + 2) with
  | error e => simp only [e2, reduceCtorEq] at h
  | ok b2 =>
    simp only [e2] at h
    cases f1 : destWrite dest i b2 with
    | error e => simp only [f1, reduceCtorEq] at h
    | ok d1 =>
      simp only [f1] at h
      cases e1 : paletteRead pal (j + 1) with
      | error e => simp only [e1, reduceCtorEq] at h
      | ok b1 =>
        simp only [e1] at h
        cases f2 : destWrite d1 (i + 1) b1 with
        | error e => simp only [f2, reduceCtorEq] at h
        | ok d2 =>
          simp only [f2] at h
          cases e0 : paletteRead pal j with
          | error e => simp only [e0, reduceCtorEq] at h
          | ok b0 =>
            simp only [e0] at h
            obtain ⟨hi1, hl1, hd1⟩ := destWrite_ok f1
            obtain ⟨hi2, hl2, hd2⟩ := destWrite_ok f2
            obtain ⟨hi3, hl3, hd3⟩ := destWrite_ok h
            subst hd1 hd2 hd3
            refine ⟨hi1, by simp only [List.length_set], fun k hk0 hk1 hk2 => ?_⟩
            rw [List.getElem?_set_ne (by omega), List.getElem?_set_ne (by omega),
              List.getElem?_set_ne (by omega)]

theorem processRow_confine (frame : GifFrame) (pal : List Nat)
    (fb_info : FramebufferInfo) (offset : Offset) (yd : Int)
    (hy0 : 0 ≤ yd) (hyh : yd < fb_info.height) :
    ∀ (line : List Nat) (x : Nat) (dest d : List Nat),
      processRow frame pal fb_info offset yd x line dest = .ok d →
      ∀ k : Nat, d[k]? ≠ dest[k]? → pixelByteTarget fb_info k := by
  intro line
  induction line with
  | nil =>
    intro x dest d h k hk
    simp only [processRow] at h
    cases h
    exact absurd rfl hk
  | cons px rest ih =>
    intro x dest d h k hk
    simp only [processRow] at h
    by_cases hx0 : (x : Int) + offset.x + (frame.left : Int) < 0
    · rw [if_pos hx0] at h
      exact ih (x + 1) dest d h k hk
    · rw [if_neg hx0] at h
      by_cases hxw : fb_info.width ≤ (x : Int) + offset.x + (frame.left : Int)
      · rw [if_pos hxw] at h
        cases h
        exact absurd rfl hk
      · rw [if_neg hxw] at h
        by_cases htr : frame.transparent = some px
        · rw [if_pos htr] at h
          exact ih (x + 1) dest d h k hk
        · rw [if_neg htr] at h
          cases hw : writePixel pal dest
              ((yd * fb_info.width + ((x : Int) + offset.x + (frame.left : Int))) *
                fb_info.channels + yd * fb_info.alignment) (px * 3) with
          | error e => simp only [hw, reduceCtorEq] at h
          | ok d1 =>
            simp only [hw] at h
            obtain ⟨hi0, hlen1, hconf⟩ := writePixel_confine hw
            by_cases hk1 : d1[k]? = dest[k]?
            · refine ih (x + 1) d1 d h k fun hdd => ?_
              exact hk (hdd.trans hk1)
            · have hmem : (k : Int) =
                  (yd * fb_info.width + ((x : Int) + offset.x + (frame.left : Int))) *
                    fb_info.channels + yd * fb_info.alignment ∨
                  (k : Int) =
                  (yd * fb_info.width + ((x : Int) + offset.x + (frame.left : Int))) *
                    fb_info.channels + yd * fb_info.alignment + 1 ∨
                  (k : Int) =
                  (yd * fb_info.width + ((x : Int) + offset.x + (frame.left : Int))) *
                    fb_info.channels + yd * fb_info.alignment + 2 := by
                by_contra hc
                push_neg at hc
                exact hk1 (hconf k hc.1 hc.2.1 hc.2.2)
              rcases hmem with hm | hm | hm
              · exact ⟨yd, (x : Int) + offset.x + (frame.left : Int), 0, hy0, hyh,
                  by omega, by omega, by norm_num, by norm_num, by linarith [hm]⟩
              · exact ⟨yd, (x : Int) + offset.x + (frame.left : Int), 1, hy0, hyh,
                  by omega, by omega, by norm_num, by norm_num, by linarith [hm]⟩
              · exact ⟨yd, (x : Int) + offset.x + (frame.left : Int), 2, hy0, hyh,
                  by omega, by omega, by norm_num, by norm_num, by linarith [hm]⟩

theorem processRows_confine (frame : GifFrame) (pal : List Nat)
    (fb_info : FramebufferInfo) (offset : Offset) :
    ∀ (rows : List (List Nat)) (y : Nat) (dest d : List Nat),
      processRows frame pal fb_info offset y rows dest = .ok d →
      ∀ k : Nat, d[k]? ≠ dest[k]? → pixelByteTarget fb_info k := by
  intro rows
  induction rows with
  | nil =>
    intro y dest d h k hk
    simp only [processRows] at h
    cases h
    exact absurd rfl hk
  | cons line rest ih =>
    intro y dest d h k hk
    simp only [processRows] at h
    by_cases hy0 : (y : Int) + offset.y + (frame.top : Int) < 0
    · rw [if_pos hy0] at h
      exact ih (y + 1) dest d h k hk
    · rw [if_neg hy0] at h
      by_cases hyh : fb_info.height ≤ (y : Int) + offset.y + (frame.top : Int)
      · rw [if_pos hyh] at h
        cases h
        exact absurd rfl hk
      · rw [if_neg hyh] at h
        cases hr : processRow frame pal fb_info offset
            ((y : Int) + offset.y + (frame.top : Int)) 0 line dest with
        | error e => simp only [hr, reduceCtorEq] at h
        | ok d1 =>
          simp only [hr] at h
          by_cases hk1 : d1[k]? = dest[k]?
          · refine ih (y + 1) d1 d h k fun hdd => ?_
            exact hk (hdd.trans hk1)
          · exact processRow_confine frame pal fb_info offset _ (by omega) (by omega)
              line 0 dest d1 hr k hk1

/-- C3: row clipping skips a row when `destY < 0` and stops all processing
when `destY ≥ height`; pixel clipping skips a pixel when `destX < 0` and
stops the row when `destX ≥ width`; consequently, whenever the compositor
returns a buffer, every byte that differs from the input buffer is one of
the three channel bytes of a destination coordinate inside
`[0, width) × [0, height)` — no byte of an out-of-bounds coordinate is ever
written, for arbitrary (also negative) offsets. -/
theorem clipping_skip_stop_confine (frame : GifFrame) (pal : List Nat)
    (fb_info : FramebufferInfo) (offset : Offset) :
    (∀ (y : Nat) (line : List Nat) (rest : List (List Nat)) (dest : List Nat),
      (y : Int) + offset.y + (frame.top : Int) < 0 →
      processRows frame pal fb_info offset y (line :: rest) dest =
        processRows frame pal fb_info offset (y + 1) rest dest) ∧
    (∀ (y : Nat) (line : List Nat) (rest : List (List Nat)) (dest : List Nat),
      0 ≤ (y : Int) + offset.y + (frame.top : Int) →
      fb_info.height ≤ (y : Int) + offset.y + (frame.top : Int) →
      processRows frame pal fb_info offset y (line :: rest) dest = .ok dest) ∧
    (∀ (yd : Int) (x px : Nat) (rest dest : List Nat),
      (x : Int) + offset.x + (frame.left : Int) < 0 →
      processRow frame pal fb_info offset yd x (px :: rest) dest =
        processRow frame pal fb_info offset yd (x + 1) rest dest) ∧
    (∀ (yd : Int) (x px : Nat) (rest dest : List Nat),
      0 ≤ (x : Int) + offset.x + (frame.left : Int) →
      fb_info.width ≤ (x : Int) + offset.x + (frame.left : Int) →
      processRow frame pal fb_info offset yd x (px :: rest) dest = .ok dest) ∧
    (∀ (dest d : List Nat) (k : Nat),
      process_gif_frame frame pal dest fb_info offset = .ok d →
      d[k]? ≠ dest[k]? → pixelByteTarget fb_info k) := by
  refine ⟨fun y line rest dest hneg => ?_, fun y line rest dest h0 hstop => ?_,
    fun yd x px rest dest hneg => ?_, fun yd x px rest dest h0 hstop => ?_,
    fun dest d k h hk => ?_⟩
  · simp only [processRows]
    rw [if_pos hneg]
  · simp only [processRows]
    rw [if_neg (by omega), if_pos hstop]
  · simp only [processRow]
    rw [if_pos hneg]
  · simp only [processRow]
    rw [if_neg (by omega), if_pos hstop]
  · unfold process_gif_frame at h
    split at h
    · cases h
    · exact processRows_confine frame pal fb_info offset _ 0 dest d h k hk

/-- Witness for C3 at a concrete input: compositing a 1-pixel frame into a
1x1 framebuffer changes byte 0, and the theorem locates it at an in-bounds
destination coordinate. -/
theorem clipping_skip_stop_confine_witness :
    pixelByteTarget ⟨1, 1, 3, 0⟩ 0 :=
  (clipping_skip_stop_confine ⟨1, 1, 0, 0, none, 0, [0], none⟩ [1, 2, 3] ⟨1, 1, 3, 0⟩
    ⟨0, 0⟩).2.2.2.2 [0, 0, 0] [3, 2, 1] 0 (by rfl) (by decide)

theorem idx_bound (w h c a yd xd : Int) (hc : 3 ≤ c) (ha : 0 ≤ a) (hy0 : 0 ≤ yd)
    (hyh : yd < h) (hx0 : 0 ≤ xd) (hxw : xd < w) :
    0 ≤ (yd * w + xd) * c + yd * a ∧ (yd * w + xd) * c + yd * a + 2 < h * (w * c + a) := by
  have hw0 : (0 : Int) ≤ w := le_of_lt (lt_of_le_of_lt hx0 hxw)
  constructor
  · have t1 : 0 ≤ (yd * w + xd) * c :=
      mul_nonneg (add_nonneg (mul_nonneg hy0 hw0) hx0) (by linarith)
    have t2 : 0 ≤ yd * a := mul_nonneg hy0 ha
    linarith
  · nlinarith [mul_le_mul_of_nonneg_right (show yd * w + xd ≤ h * w - 1 by nlinarith)
      (by linarith : (0 : Int) ≤ c),
      mul_le_mul_of_nonneg_right (show yd ≤ h - 1 by omega) ha]

theorem writePixel_total (pal dest : List Nat) (i : Int) (j : Nat)
    (hi : 0 ≤ i) (hlen : i.toNat + 2 < dest.length) :
    (∃ d, writePixel pal dest i j = .ok d ∧ d.length = dest.length) ∨
      writePixel pal dest i j = .error .paletteOob := by
  by_cases hj : j + 3 ≤ pal.length
  · exact Or.inl ⟨_, writePixel_eq_of_bounds hj hi hlen, by simp only [List.length_set]⟩
  · exact Or.inr (writePixel_palette_oob (by omega))

theorem processRow_total (frame : GifFrame) (pal : List Nat)
    (fb_info : FramebufferInfo) (offset : Offset) (yd : Int) (L : Nat)
    (hy0 : 0 ≤ yd) (hyh : yd < fb_info.height) (hc : 3 ≤ fb_info.channels)
    (ha : 0 ≤ fb_info.alignment) (hL : fb_info.height * rowStride fb_info ≤ (L : Int)) :
    ∀ (line : List Nat) (x : Nat) (dest : List Nat), dest.length = L →
      (∃ d, processRow frame pal fb_info offset yd x line dest = .ok d ∧ d.length = L) ∨
        processRow frame pal fb_info offset yd x line dest = .error .paletteOob := by
  intro line
  induction line with
  | nil =>
    intro x dest hdl
    exact Or.inl ⟨dest, by simp only [processRow], hdl⟩
  | cons px rest ih =>
    intro x dest hdl
    by_cases hx0 : (x : Int) + offset.x + (frame.left : Int) < 0
    · have he : processRow frame pal fb_info offset yd x (px :: rest) dest =
          processRow frame pal fb_info offset yd (x + 1) rest dest := by
        simp only [processRow]
        rw [if_pos hx0]
      rw [he]
      exact ih (x + 1) dest hdl
    · by_cases hxw : fb_info.width ≤ (x : Int) + offset.x + (frame.left : Int)
      · refine Or.inl ⟨dest, ?_, hdl⟩
        simp only [processRow]
        rw [if_neg hx0, if_pos hxw]
      · by_cases htr : frame.transparent = some px
        · have he : processRow frame pal fb_info offset yd x (px :: rest) dest =
              processRow frame pal fb_info offset yd (x + 1) rest dest := by
            simp only [processRow]
            rw [if_neg hx0, if_neg hxw, if_pos htr]
          rw [he]
          exact ih (x + 1) dest hdl
        · have hb := idx_bound fb_info.width fb_info.height fb_info.channels
            fb_info.alignment yd ((x : Int) + offset.x + (frame.left : Int))
            hc ha hy0 hyh (by omega) (by omega)
          have hi0 : 0 ≤ (yd * fb_info.width + ((x : Int) + offset.x + (frame.left : Int))) *
              fb_info.channels + yd * fb_info.alignment := hb.1
          have hi2 : ((yd * fb_info.width + ((x : Int) + offset.x + (frame.left : Int))) *
              fb_info.channels + yd * fb_info.alignment).toNat + 2 < dest.length := by
            have h2 := hb.2
            unfold rowStride at hL
            omega
          rcases writePixel_total pal dest
              ((yd * fb_info.width + ((x : Int) + offset.x + (frame.left : Int))) *
                fb_info.channels + yd * fb_info.alignment) (px * 3) hi0 hi2 with
            ⟨d1, hwp, hd1⟩ | hwp
          · have he : processRow frame pal fb_info offset yd x (px :: rest) dest =
                processRow frame pal fb_info offset yd (x + 1) rest d1 := by
              simp only [processRow]
              rw [if_neg hx0, if_neg hxw, if_neg htr, hwp]
            rw [he]
            exact ih (x + 1) d1 (by omega)
          · refine Or.inr ?_
            simp only [processRow]
            rw [if_neg hx0, if_neg hxw, if_neg htr, hwp]

theorem processRows_total (frame : GifFrame) (pal : List Nat)
    (fb_info : FramebufferInfo) (offset : Offset) (L : Nat)
    (hc : 3 ≤ fb_info.channels) (ha : 0 ≤ fb_info.alignment)
    (hL : fb_info.height * rowStride fb_info ≤ (L : Int)) :
    ∀ (rows : List (List Nat)) (y : Nat) (dest : List Nat), dest.length = L →
      (∃ d, processRows frame pal fb_info offset y rows dest = .ok d ∧ d.length = L) ∨
        processRows frame pal fb_info offset y rows dest = .error .paletteOob := by
  intro rows
  induction rows with
  | nil =>
    intro y dest hdl
    exact Or.inl ⟨dest, by simp only [processRows], hdl⟩
  | cons line rest ih =>
    intro y dest hdl
    by_cases hy0 : (y : Int) + offset.y + (frame.top : Int) < 0
    · have he : processRows frame pal fb_info offset y (line :: rest) dest =
          processRows frame pal fb_info offset (y + 1) rest dest := by
        simp only [processRows]
        rw [if_pos hy0]
      rw [he]
      exact ih (y + 1) dest hdl
    · by_cases hyh : fb_info.height ≤ (y : Int) + offset.y + (frame.top : Int)
      · refine Or.inl ⟨dest, ?_, hdl⟩
        simp only [processRows]
        rw [if_neg hy0, if_pos hyh]
      · rcases processRow_total frame pal fb_info offset
            ((y : Int) + offset.y + (frame.top : Int)) L (by omega) (by omega) hc ha hL
            line 0 dest hdl with ⟨d1, hr, hd1⟩ | hr
        · have he : processRows frame pal fb_info offset y (line :: rest) dest =
              processRows frame pal fb_info offset (y + 1) rest d1 := by
            simp only [processRows]
            rw [if_neg hy0, if_neg hyh, hr]
          rw [he]
          exact ih (y + 1) d1 hd1
        · refine Or.inr ?_
          simp only [processRows]
          rw [if_neg hy0, if_neg hyh, hr]

/-- C9: when the destination buffer is at least
`height * (width * channelsPerPixel + rowPaddingBytes)` bytes long, the
channel count is at least 3 and the padding is nonnegative, every
destination index the compositor accesses (`o`, `o+1`, `o+2` of each pixel
that passes clipping) is strictly inside the buffer: the run can never end
in the destination out-of-range error. -/
theorem dest_access_in_bounds (frame : GifFrame) (pal dest : List Nat)
    (fb_info : FramebufferInfo) (offset : Offset)
    (hc : 3 ≤ fb_info.channels) (ha : 0 ≤ fb_info.alignment)
    (hlen : fb_info.height * (fb_info.width * fb_info.channels + fb_info.alignment) ≤
      (dest.length : Int)) :
    process_gif_frame frame pal dest fb_info offset ≠ .error .destOob := by
  unfold process_gif_frame
  split
  · simp only [ne_eq, Except.error.injEq, reduceCtorEq, not_false_eq_true]
  · rcases processRows_total frame pal fb_info offset dest.length hc ha
        (by unfold rowStride; omega) (chunksList frame.width frame.buffer) 0 dest rfl with
      ⟨d, hok, _⟩ | herr
    · rw [hok]
      simp only [ne_eq, reduceCtorEq, not_false_eq_true]
    · rw [herr]
      simp only [ne_eq, Except.error.injEq, reduceCtorEq, not_false_eq_true]

/-- Witness for C9 at a concrete input: a 1x1, 3-channel framebuffer with a
3-byte destination buffer cannot produce a destination out-of-range error
for a 1-pixel frame. -/
theorem dest_access_in_bounds_witness :
    process_gif_frame ⟨1, 1, 0, 0, none, 0, [0], none⟩ [1, 2, 3] [0, 0, 0] ⟨1, 1, 3, 0⟩
      ⟨0, 0⟩ ≠ .error .destOob :=
  dest_access_in_bounds ⟨1, 1, 0, 0, none, 0, [0], none⟩ [1, 2, 3] [0, 0, 0] ⟨1, 1, 3, 0⟩
    ⟨0, 0⟩ (by decide) (by decide) (by decide)

theorem processRow_all_transparent (frame : GifFrame) (pal : List Nat)
    (fb_info : FramebufferInfo) (offset : Offset) (yd : Int) (t : Nat)
    (htr : frame.transparent = some t) :
    ∀ (line : List Nat) (x : Nat) (dest : List Nat), (∀ px ∈ line, px = t) →
      processRow frame pal fb_info offset yd x line dest = .ok dest := by
  intro line
  induction line with
  | nil =>
    intro x dest _
    simp only [processRow]
  | cons px rest ih =>
    intro x dest hall
    have hpx : px = t := hall px (List.mem_cons_self px rest)
    simp only [processRow]
    by_cases hx0 : (x : Int) + offset.x + (frame.left : Int) < 0
    · rw [if_pos hx0]
      exact ih (x + 1) dest fun q hq => hall q (List.mem_cons_of_mem px hq)
    · rw [if_neg hx0]
      by_cases hxw : fb_info.width ≤ (x : Int) + offset.x + (frame.left : Int)
      · rw [if_pos hxw]
      · rw [if_neg hxw, if_pos (by rw [htr, hpx])]
        exact ih (x + 1) dest fun q hq => hall q (List.mem_cons_of_mem px hq)

theorem processRows_all_transparent (frame : GifFrame) (pal : List Nat)
    (fb_info : FramebufferInfo) (offset : Offset) (t : Nat)
    (htr : frame.transparent = some t) :
    ∀ (rows : List (List Nat)) (y : Nat) (dest : List Nat),
      (∀ l ∈ rows, ∀ px ∈ l, px = t) →
      processRows frame pal fb_info offset y rows dest = .ok dest := by
  intro rows
  induction rows with
  | nil =>
    intro y dest _
    simp only [processRows]
  | cons line rest ih =>
    intro y dest hall
    simp only [processRows]
    by_cases hy0 : (y : Int) + offset.y + (frame.top : Int) < 0
    · rw [if_pos hy0]
      exact ih (y + 1) dest fun l hl => hall l (List.mem_cons_of_mem line hl)
    · rw [if_neg hy0]
      by_cases hyh : fb_info.height ≤ (y : Int) + offset.y + (frame.top : Int)
      · rw [if_pos hyh]
      · rw [if_neg hyh, processRow_all_transparent frame pal fb_info offset _ t htr line 0
          dest (hall line (List.mem_cons_self line rest))]
        exact ih (y + 1) dest fun l hl => hall l (List.mem_cons_of_mem line hl)

theorem chunksGo_mem (w : Nat) :
    ∀ (fuel : Nat) (l sub : List Nat), sub ∈ chunksGo w fuel l → ∀ a ∈ sub, a ∈ l := by
  intro fuel
  induction fuel with
  | zero =>
    intro l sub h
    simp only [chunksGo, List.not_mem_nil] at h
  | succ f ih =>
    intro l sub h a ha
    cases l with
    | nil => simp only [chunksGo, List.not_mem_nil] at h
    | cons b bl =>
      simp only [chunksGo, List.mem_cons] at h
      cases h with
      | inl h =>
        subst h
        exact List.mem_of_mem_take ha
      | inr h => exact List.mem_of_mem_drop (ih _ _ h a ha)

theorem chunksList_mem {w : Nat} {l sub : List Nat} (h : sub ∈ chunksList w l) :
    ∀ a ∈ sub, a ∈ l := by
  unfold chunksList at h
  split at h
  · simp only [List.not_mem_nil] at h
  · exact chunksGo_mem w l.length l sub h

/-- C6: pixels equal to the frame's transparent index are skipped before any
destination access, so compositing a frame whose pixels are all transparent
returns the destination buffer unchanged; in particular, compositing frame
A and then such an all-transparent frame B yields exactly the buffer
obtained after A alone.  The first conjunct is the local skip step: a
transparent pixel inside the row bound advances the loop without touching
the buffer. -/
theorem transparent_pixels_preserve_dest (frame : GifFrame) (pal : List Nat)
    (fb_info : FramebufferInfo) (offset : Offset) (t : Nat)
    (htr : frame.transparent = some t) (hall : ∀ px ∈ frame.buffer, px = t)
    (hw : frame.width ≠ 0) :
    (∀ (yd : Int) (x : Nat) (rest dest : List Nat),
      (x : Int) + offset.x + (frame.left : Int) < fb_info.width →
      processRow frame pal fb_info offset yd x (t :: rest) dest =
        processRow frame pal fb_info offset yd (x + 1) rest dest) ∧
    (∀ dest : List Nat, process_gif_frame frame pal dest fb_info offset = .ok dest) ∧
    (∀ (frameA : GifFrame) (palA d0 dA : List Nat),
      process_gif_frame frameA palA d0 fb_info offset = .ok dA →
      process_gif_frame frame pal dA fb_info offset = .ok dA) := by
  have hid : ∀ dest : List Nat, process_gif_frame frame pal dest fb_info offset = .ok dest := by
    intro dest
    unfold process_gif_frame
    rw [if_neg hw]
    exact processRows_all_transparent frame pal fb_info offset t htr _ 0 dest
      fun l hl px hpx => hall px (chunksList_mem hl px hpx)
  refine ⟨fun yd x rest dest hxw => ?_, hid, fun frameA palA d0 dA _ => hid dA⟩
  simp only [processRow]
  by_cases hx0 : (x : Int) + offset.x + (frame.left : Int) < 0
  · rw [if_pos hx0]
  · rw [if_neg hx0, if_neg (by omega), if_pos htr]

/-- Witness for C6 at a concrete input: an all-transparent 2x1 frame leaves
the buffer `[5, 6, 7]` unchanged, after a first frame was composited. -/
theorem transparent_pixels_preserve_dest_witness :
    process_gif_frame ⟨2, 1, 0, 0, some 4, 0, [4, 4], none⟩ [1, 2, 3] [3, 2, 1] ⟨1, 1, 3, 0⟩
      ⟨0, 0⟩ = .ok [3, 2, 1] :=
  (transparent_pixels_preserve_dest ⟨2, 1, 0, 0, some 4, 0, [4, 4], none⟩ [1, 2, 3]
    ⟨1, 1, 3, 0⟩ ⟨0, 0⟩ 4 rfl (by decide) (by decide)).2.2
    ⟨1, 1, 0, 0, none, 0, [0], none⟩ [1, 2, 3] [0, 0, 0] [3, 2, 1] (by rfl)

theorem euclid_unique (m q q' r r' : Int) (hm : 0 < m) (hr : 0 ≤ r) (hr2 : r < m)
    (hr' : 0 ≤ r') (hr2' : r' < m) (h : q * m + r = q' * m + r') : q = q' ∧ r = r' := by
  have key : (q - q') * m = r' - r := by ring_nf; linarith
  have hq : q = q' := by
    rcases lt_trichotomy q q' with h1 | h1 | h1
    · exfalso
      have h2 : q - q' ≤ -1 := by omega
      have h3 : (q - q') * m ≤ (-1) * m := mul_le_mul_of_nonneg_right h2 hm.le
      linarith
    · exact h1
    · exfalso
      have h2 : (1 : Int) ≤ q - q' := by omega
      have h3 : (1 : Int) * m ≤ (q - q') * m := mul_le_mul_of_nonneg_right h2 hm.le
      linarith
  refine ⟨hq, ?_⟩
  subst hq
  linarith

/-- C7: under the standard geometry (at least 3 channels per pixel,
nonnegative row padding), a compositor run that returns a buffer leaves
every row-padding byte and every channel byte beyond the first three of a
pixel exactly as it was: the only bytes it can modify are the three channel
bytes `o`, `o+1`, `o+2` of in-bounds pixels (see `pixelByteTarget`). -/
theorem padding_and_extra_channels_untouched (frame : GifFrame) (pal : List Nat)
    (fb_info : FramebufferInfo) (offset : Offset) (dest d : List Nat)
    (hc : 3 ≤ fb_info.channels) (ha : 0 ≤ fb_info.alignment)
    (hok : process_gif_frame frame pal dest fb_info offset = .ok d) :
    (∀ k : Nat, isPaddingByte fb_info k → d[k]? = dest[k]?) ∧
    (∀ k : Nat, isExtraChannelByte fb_info k → d[k]? = dest[k]?) := by
  have hconf : ∀ k : Nat, d[k]? ≠ dest[k]? → pixelByteTarget fb_info k := by
    intro k hk
    unfold process_gif_frame at hok
    split at hok
    · cases hok
    · exact processRows_confine frame pal fb_info offset _ 0 dest d hok k hk
  constructor
  · intro k hpad
    by_contra hk
    obtain ⟨yd, r, hy0, hrlo, hrhi, hkeq⟩ := hpad
    obtain ⟨yd', xd', t', hy0', hyh', hx0', hxw', ht0', ht3', hkeq'⟩ := hconf k hk
    have hw1 : (1 : Int) ≤ fb_info.width := by omega
    have hc0 : (0 : Int) ≤ fb_info.channels := by omega
    have hwc : fb_info.channels ≤ fb_info.width * fb_info.channels :=
      le_mul_of_one_le_left hc0 hw1
    have hstride : rowStride fb_info = fb_info.width * fb_info.channels + fb_info.alignment :=
      rfl
    have hpos : 0 < rowStride fb_info := by
      rw [hstride]
      linarith
    have hr2 : (k : Int) = yd' * rowStride fb_info + (xd' * fb_info.channels + t') := by
      rw [hkeq', hstride]
      ring
    have hrr : xd' * fb_info.channels + t' < fb_info.width * fb_info.channels := by
      nlinarith [mul_le_mul_of_nonneg_right (show xd' + 1 ≤ fb_info.width by omega) hc0]
    have hrr0 : 0 ≤ xd' * fb_info.channels + t' := by
      have := mul_nonneg hx0' hc0
      omega
    have hr0 : 0 ≤ r := by
      have := mul_nonneg (show (0 : Int) ≤ fb_info.width by omega) hc0
      linarith
    have heq : yd * rowStride fb_info + r =
        yd' * rowStride fb_info + (xd' * fb_info.channels + t') := by
      rw [← hkeq, ← hr2]
    have huniq := euclid_unique (rowStride fb_info) yd yd' r
      (xd' * fb_info.channels + t') hpos hr0 hrhi hrr0 (by rw [hstride]; linarith) heq
    linarith [huniq.2]
  · intro k hex
    by_contra hk
    obtain ⟨yd, xd, t, hy0, hx0, hxw, ht3, htc, hkeq⟩ := hex
    obtain ⟨yd', xd', t', hy0', hyh', hx0', hxw', ht0', ht3', hkeq'⟩ := hconf k hk
    have hw1 : (1 : Int) ≤ fb_info.width := by omega
    have hc0 : (0 : Int) ≤ fb_info.channels := by omega
    have hwc : fb_info.channels ≤ fb_info.width * fb_info.channels :=
      le_mul_of_one_le_left hc0 hw1
    have hstride : rowStride fb_info = fb_info.width * fb_info.channels + fb_info.alignment :=
      rfl
    have hpos : 0 < rowStride fb_info := by
      rw [hstride]
      linarith
    have hr1lt : xd * fb_info.channels + t < fb_info.width * fb_info.channels := by
      nlinarith [mul_le_mul_of_nonneg_right (show xd + 1 ≤ fb_info.width by omega) hc0]
    have hr2lt : xd' * fb_info.channels + t' < fb_info.width * fb_info.channels := by
      nlinarith [mul_le_mul_of_nonneg_right (show xd' + 1 ≤ fb_info.width by omega) hc0]
    have hr10 : 0 ≤ xd * fb_info.channels + t := by
      have := mul_nonneg hx0 hc0
      omega
    have hr20 : 0 ≤ xd' * fb_info.channels + t' := by
      have := mul_nonneg hx0' hc0
      omega
    have heq : yd * rowStride fb_info + (xd * fb_info.channels + t) =
        yd' * rowStride fb_info + (xd' * fb_info.channels + t') := by
      have h1 : (k : Int) = yd * rowStride fb_info + (xd * fb_info.channels + t) := by
        rw [hkeq]
        ring
      have h2 : (k : Int) = yd' * rowStride fb_info + (xd' * fb_info.channels + t') := by
        rw [hkeq', hstride]
        ring
      rw [← h1, ← h2]
    have hu1 := euclid_unique (rowStride fb_info) yd yd' (xd * fb_info.channels + t)
      (xd' * fb_info.channels + t') hpos hr10 (by rw [hstride]; linarith) hr20
      (by rw [hstride]; linarith) heq
    have hu2 := euclid_unique fb_info.channels xd xd' t t' (by omega) (by omega) htc
      ht0' (by omega) hu1.2
    obtain ⟨-, htt⟩ := hu2
    omega

/-- Witness for C7 at a concrete input: in a 2x1 framebuffer with 4 channels
per pixel and 1 padding byte per row, compositing a 1-pixel frame leaves
the padding byte (index 8) and the fourth channel byte of the written pixel
(index 3) unchanged. -/
theorem padding_and_extra_channels_untouched_witness :
    ([3, 2, 1, 7, 7, 7, 7, 7, 7] : List Nat)[8]? = (List.replicate 9 7 : List Nat)[8]? ∧
    ([3, 2, 1, 7, 7, 7, 7, 7, 7] : List Nat)[3]? = (List.replicate 9 7 : List Nat)[3]? := by
  have h := padding_and_extra_channels_untouched ⟨1, 1, 0, 0, none, 0, [0], none⟩ [1, 2, 3]
    ⟨2, 1, 4, 1⟩ ⟨0, 0⟩ (List.replicate 9 7) [3, 2, 1, 7, 7, 7, 7, 7, 7] (by decide)
    (by decide) (by rfl)
  exact ⟨h.1 8 ⟨0, 8, by decide, by decide, by decide, by decide⟩,
    h.2 3 ⟨0, 0, 3, by decide, by decide, by decide, by decide, by decide, by decide⟩⟩

theorem runSched_done (src : GifSource) (once : Bool) (fb_info : FramebufferInfo)
    (offset : Offset) :
    ∀ (n : Nat) (s : SchedState), s.done = true →
      runSched src once fb_info offset n s = .ok s := by
  intro n
  induction n with
  | zero =>
    intro s _
    simp only [runSched]
  | succ m ih =>
    intro s h
    simp only [runSched, schedStep, h, if_true]
    exact ih s h

theorem runSched_consume (src : GifSource) (once : Bool) (fb_info : FramebufferInfo)
    (offset : Offset) :
    ∀ (rest : List GifFrame) (s s' : SchedState), s.done = false → s.remaining = rest →
      runSched src once fb_info offset rest.length s = .ok s' →
      s'.done = false ∧ s'.remaining = [] ∧
        s'.flushes.length = s.flushes.length + rest.length := by
  intro rest
  induction rest with
  | nil =>
    intro s s' hdone hrem h
    simp only [List.length_nil, runSched] at h
    cases h
    exact ⟨hdone, hrem, rfl⟩
  | cons f fs ih =>
    intro s s' hdone hrem h
    simp only [List.length_cons, runSched, schedStep, hdone, Bool.false_eq_true,
      if_false, hrem] at h
    cases hp : process_gif_frame f (resolvePalette (globalPalOf src) f) s.dest
        fb_info offset with
    | error e => simp only [hp, reduceCtorEq] at h
    | ok d =>
      simp only [hp] at h
      have := ih { remaining := fs, dest := d, flushes := s.flushes ++ [d], done := false }
        s' rfl rfl h
      refine ⟨this.1, this.2.1, ?_⟩
      have hlen := this.2.2
      simp only [List.length_append, List.length_singleton] at hlen
      simp only [List.length_cons]
      omega

/-- C5: at end of stream the scheduler behaves as follows.  In single-pass
mode (`once` set), running one step per stream frame from the initial state
consumes the whole stream while flushing exactly once per frame (3 flushes
for a 3-frame stream), and the next step reaches the terminal state, which
every further step leaves unchanged.  In looping mode, the end-of-stream
step re-opens the same source from the beginning — subsequent frames are
again resolved against the same stream palettes, as re-parsing the
unchanged file re-reads the same global palette — while the destination
buffer and the flush history are carried over unreset (and the offset,
being a fixed parameter of the loop, is never recomputed). -/
theorem end_of_stream_behavior (src : GifSource) (fb_info : FramebufferInfo)
    (offset : Offset) :
    (∀ (dest0 : List Nat) (s' : SchedState),
      runSched src true fb_info offset src.frames.length (initState src dest0) = .ok s' →
      s'.remaining = [] ∧ s'.flushes.length = src.frames.length ∧
      schedStep src true fb_info offset s' = .ok { s' with done := true } ∧
      ∀ m : Nat, runSched src true fb_info offset m { s' with done := true } =
        .ok { s' with done := true }) ∧
    (∀ s : SchedState, s.done = false → s.remaining = [] →
      schedStep src false fb_info offset s =
        .ok { remaining := src.frames, dest := s.dest, flushes := s.flushes,
              done := false }) := by
  constructor
  · intro dest0 s' h
    have hc := runSched_consume src true fb_info offset src.frames
      (initState src dest0) s' rfl rfl h
    have hstep : schedStep src true fb_info offset s' = .ok { s' with done := true } := by
      unfold schedStep
      rw [if_neg (by rw [hc.1]; exact Bool.false_ne_true), hc.2.1]
      rw [if_pos rfl]
    refine ⟨hc.2.1, by rw [hc.2.2]; simp [initState], hstep, fun m => ?_⟩
    exact runSched_done src true fb_info offset m { s' with done := true } rfl
  · intro s hdone hrem
    unfold schedStep
    rw [if_neg (by rw [hdone]; exact Bool.false_ne_true), hrem, if_neg Bool.false_ne_true]
    cases s with
    | mk rem dest flushes done =>
      simp only at hdone hrem
      subst hdone hrem
      rfl

/-- Witness for C5 at a concrete input: a 3-frame stream in single-pass mode
performs exactly 3 composite-flush cycles and then stops, the terminal step
turning on `done` while keeping buffer and flush log. -/
theorem end_of_stream_behavior_witness :
    (⟨[], [9, 9, 9], [[9, 9, 9], [9, 9, 9], [9, 9, 9]], false⟩ : SchedState).flushes.length =
      3 ∧
    schedStep ⟨some [1, 2, 3], List.replicate 3 ⟨1, 1, 0, 0, some 0, 0, [0], none⟩⟩ true
      ⟨1, 1, 3, 0⟩ ⟨0, 0⟩ ⟨[], [9, 9, 9], [[9, 9, 9], [9, 9, 9], [9, 9, 9]], false⟩ =
      .ok ⟨[], [9, 9, 9], [[9, 9, 9], [9, 9, 9], [9, 9, 9]], true⟩ := by
  have h := (end_of_stream_behavior
    ⟨some [1, 2, 3], List.replicate 3 ⟨1, 1, 0, 0, some 0, 0, [0], none⟩⟩ ⟨1, 1, 3, 0⟩
    ⟨0, 0⟩).1 [9, 9, 9]
    ⟨[], [9, 9, 9], [[9, 9, 9], [9, 9, 9], [9, 9, 9]], false⟩ (by rfl)
  exact ⟨h.2.1.trans (by simp), h.2.2.1⟩

end FbAnim
